import Mathlib

/-!
Verification of the md-docutils spellcheck driver.

Shallow embedding of the spellcheck script of `profusion/md-docutils`:
the `Aspell` process adapter (FIFO request queue, line-oriented response
protocol), the word/non-word segmenter, the document-tree walker with
per-element language overrides and ignore lists, the result reconciler
that builds annotation elements, and the `main` document loop.

Conventions of the embedding:
* JavaScript strings are Lean `String`s (lists of characters).
* The Unicode character class `[\pL\pN]` used by the source
  (`Aspell.wordRegExp = '\\pL\\pN'`) is modelled as an explicit parameter
  `wc : Char → Bool`; the concrete instance `Aspell.wordChar` below agrees
  with `\pL\pN` on ASCII, which covers every example in this development.
* `throw new Error(...)` becomes `Except AspellError`.
* The external `aspell` process, event emitters and promises are replaced
  by explicit state passing: the pending-request queue is a list, words
  written to the process stdin are recorded, and the asynchronous verdicts
  of a language session are abstracted as an oracle function.
-/

namespace MdDocutils

/-! Section: Word segmenter (`Aspell.splitWordsAndSpaces`, `Aspell.isWord`) -/

namespace Aspell

/-- Concrete word-character class.  The source uses the XRegExp class
`[\pL\pN]` (Unicode letters and numbers); this decidable model restricts
to the ASCII letters and digits, on which the two classes coincide.  All
segmenter theorems are stated for an arbitrary class `wc` and hold for the
full Unicode class as well. -/
def wordChar (c : Char) : Bool := c.isAlpha || c.isDigit

/-- Maximal runs of characters of equal `wc`-classification, in order.
This is the semantics of
`str.split(XRegExp('([\pL\pN]+|[^\pL\pN]+)')).filter(p => !!p)`:
splitting on a capturing group that matches every maximal word-class or
non-word-class run yields exactly those runs (the in-between pieces are
empty and are discarded by the filter). -/
def splitRuns (wc : Char → Bool) : List Char → List (List Char)
  | [] => []
  | c :: cs =>
    match splitRuns wc cs with
    | [] => [[c]]
    | [] :: rs => [c] :: rs
    | (d :: ds) :: rs =>
      if wc c = wc d then (c :: d :: ds) :: rs else [c] :: (d :: ds) :: rs

/-- Model of `Aspell.splitWordsAndSpaces(str)`: the ordered word / non-word
spans of `str`. -/
def splitWordsAndSpaces (wc : Char → Bool) (s : String) : List String :=
  (splitRuns wc s.toList).map List.asString

/-- Model of `Aspell.isWord(str)`, i.e. of the test
`!!str.match(XRegExp(WORDCLASS))` with the anchored one-or-more word-class
regex: the string is nonempty and consists of word-class characters only. -/
def isWord (wc : Char → Bool) (s : String) : Bool :=
  !s.toList.isEmpty && s.toList.all wc

/-! Section: Response-line splitting (`line.split(/:?,?\s/g)` in `parseLine`) -/

/-- The characters matched by the JavaScript regex class `\s` that can
occur in `aspell` output (space, tab, line/paragraph separators).  The JS
class also contains several exotic Unicode spaces, none of which `aspell`
emits. -/
def isWs (c : Char) : Bool :=
  c = ' ' || c = '\t' || c = '\n' || c = '\r' || c = '\x0b' || c = '\x0c'

/-- Splitter for the regex `/:?,?\s/g`: at each position the leftmost,
greedy match is `":,\s"`, `":\s"`, `",\s"` or `"\s"`; matched separators
are dropped and the pieces in between (empty pieces included, exactly as
`String.prototype.split` produces them) are returned.  `cur` is the
reversed piece accumulated so far. -/
def splitSepAux (cur : List Char) : List Char → List (List Char)
  | [] => [cur.reverse]
  | ':' :: ',' :: c₃ :: rest₃ =>
    if isWs c₃ then cur.reverse :: splitSepAux [] rest₃
    else splitSepAux (':' :: cur) (',' :: c₃ :: rest₃)
  | ':' :: c₂ :: rest₂ =>
    if isWs c₂ then cur.reverse :: splitSepAux [] rest₂
    else splitSepAux (':' :: cur) (c₂ :: rest₂)
  | [':'] => [(':' :: cur).reverse]
  | ',' :: c₂ :: rest₂ =>
    if isWs c₂ then cur.reverse :: splitSepAux [] rest₂
    else splitSepAux (',' :: cur) (c₂ :: rest₂)
  | [','] => [(',' :: cur).reverse]
  | c :: rest =>
    if isWs c then cur.reverse :: splitSepAux [] rest
    else splitSepAux (c :: cur) rest

/-- Model of `line.split(/:?,?\s/g)` from `Aspell.parseLine`. -/
def splitResponseLine (line : String) : List String :=
  (splitSepAux [] line.toList).map List.asString

/-- JavaScript `parseInt` at radix 10: skip leading whitespace, optional
sign, then the longest digit prefix; `NaN` (here `none`) when no digit
follows. -/
def jsParseInt (s : String) : Option Int :=
  let core := fun (l : List Char) (sign : Int) =>
    let ds := l.takeWhile Char.isDigit
    if ds.isEmpty then none
    else some (sign * ds.foldl (fun a c => a * 10 + ((c.toNat : Int) - 48)) 0)
  match s.toList.dropWhile isWs with
  | '-' :: rest => core rest (-1)
  | '+' :: rest => core rest 1
  | cs => core cs 1

/-! Section: Checker process adapter (`class Aspell`) -/

/-- The `Aspell.aspellToEventMap` table: first response-line character to
event type; absent keys give JavaScript `undefined`, here `none`. -/
def aspellToEventMap (c : Char) : Option String :=
  if c = '*' then some "ok"
  else if c = '-' then some "run-together"
  else if c = '&' then some "misspelling"
  else if c = '#' then some "misspelling"
  else none

/-- Faults thrown by the adapter (`throw new Error(...)` in the source,
plus the implicit TypeError of dequeuing from an empty queue). -/
inductive AspellError
  | notAWord
  | protocolMismatch (expected : String) (got : Option String)
  | emptyQueue
deriving Repr, DecidableEq

/-- A structured result emitted by `parseLine` / the `result` event.
`verdict` carries the fields of the source's result object: its `type`
(`aspellToEventMap[c]`, `none` for an unknown first character), the
dequeued request's `word` and `info`, and — set only for `&`/`#` lines —
`position` and `alternatives`. -/
inductive AspellResult (α : Type)
  | lineBreak
  | comment
  | verdict (type : Option String) (word : String) (info : α)
      (position : Option Int) (alternatives : Option (List String))
deriving Repr, DecidableEq

/-- The mutable state of one `Aspell` instance: the FIFO `queue` of
pending requests, the words written to the process stdin, and whether the
stdin stream has been half-closed by `end()`. -/
structure AspellState (α : Type) where
  queue : List (String × α)
  written : List String
  stdinClosed : Bool
deriving Repr, DecidableEq

/-- Model of `Aspell.checkWord(word, info)`: throws unless `isWord(word)`;
otherwise pushes `{word, info}` onto the queue and writes the word to the
process stdin. -/
def checkWord (wc : Char → Bool) (word : String) (info : α)
    (st : AspellState α) : Except AspellError (AspellState α) :=
  if !isWord wc word then .error .notAWord
  else .ok { st with
    queue := st.queue ++ [(word, info)]
    written := st.written ++ [word] }

/-- Model of `Aspell.end()`: half-closes the process stdin. -/
def endInput (st : AspellState α) : AspellState α :=
  { st with stdinClosed := true }

/-- Model of `Aspell.parseLine(line)` acting on the request queue.  An empty line
is a `line-break`, a line starting with `@` a `comment`; both leave the
queue untouched.  Every other line dequeues the head request (a crash —
modelled as `emptyQueue` — when there is none).  For `&`/`#` lines the
claimed word `parts[1]` must equal the dequeued word, else a
protocol-mismatch fault is thrown; `position` is `parseInt(parts[2])`
for `#` and `parseInt(parts[3])` for `&`, and `alternatives` is
`parts.slice(4)`. -/
def parseLine (line : String) (queue : List (String × α)) :
    Except AspellError (AspellResult α × List (String × α)) :=
  match line.toList with
  | [] => .ok (.lineBreak, queue)
  | c :: _ =>
    if c = '@' then .ok (.comment, queue)
    else
      match queue with
      | [] => .error .emptyQueue
      | (w, i) :: qs =>
        if c = '&' ∨ c = '#' then
          let parts := splitResponseLine line
          if parts[1]? = some w then
            let position := (parts[if c = '#' then 2 else 3]?).bind jsParseInt
            .ok (.verdict (aspellToEventMap c) w i position (some (parts.drop 4)), qs)
          else .error (.protocolMismatch w parts[1]?)
        else
          .ok (.verdict (aspellToEventMap c) w i none none, qs)

/-- The stdout `data` handler's loop: parse each complete line in order,
threading the queue; the first fault aborts. -/
def processLines (lines : List String) (queue : List (String × α)) :
    Except AspellError (List (AspellResult α) × List (String × α)) :=
  match lines with
  | [] => .ok ([], queue)
  | l :: ls => do
    let (r, q) ← parseLine l queue
    let (rs, q') ← processLines ls q
    .ok (r :: rs, q')

/-- The word a result resolves, when it resolves one. -/
def verdictWord : AspellResult α → Option String
  | .verdict _ w _ _ _ => some w
  | _ => none

end Aspell

/-! Section: Promise resolution (the per-checker `on('result')` handler) -/

/-- The opaque `info` context built by `spellCheckText`:
`{ resolve, reject, offset, lang }` without the promise callbacks. -/
structure WordInfo where
  offset : Nat
  lang : String
deriving Repr, DecidableEq

/-- The value a checker promise resolves with, as consumed by the
reconciler: `{ success, word, info.lang, alternatives }`.  `alternatives`
is `none` where the source leaves the field `undefined`. -/
structure CheckOutcome where
  success : Bool
  word : String
  lang : String
  alternatives : Option (List String)
deriving Repr, DecidableEq

/-- The `on('result')` switch: `ok` resolves `{success: true, word, info}`;
`misspelling` and `run-together` resolve
`{success: false, word, info, alternatives}`; `line-break` and `comment`
resolve nothing; an unexpected type is only logged. -/
def handleResult : Aspell.AspellResult WordInfo → Option CheckOutcome
  | .verdict t w info _ alts =>
    if t = some "ok" then
      some { success := true, word := w, lang := info.lang, alternatives := none }
    else if t = some "misspelling" || t = some "run-together" then
      some { success := false, word := w, lang := info.lang, alternatives := alts }
    else none
  | _ => none

/-! Section: Result reconciler (the `replaceWith` mapping in `spellCheckHtml`) -/

/-- A replacement fragment: plain text, or the annotation element
`<abbr class=cls title=title>visible</abbr>`. -/
inductive Fragment
  | text (s : String)
  | abbrElem (cls : String) (visible : String) (title : String)
deriving Repr, DecidableEq

/-- One step of `spellCheckResults.map(...)` in `spellCheckHtml`: a
successful result stays plain text `r.word`; a failing result becomes
`<abbr class="misspelling lang-{lang}" title="{alternatives.join(', ')}?">{word}</abbr>`.
When `alternatives` is `undefined` (`none`), `r.alternatives.join` throws
a TypeError, modelled as `none`. -/
def resultToFragment (r : CheckOutcome) : Option Fragment :=
  if r.success then some (.text r.word)
  else
    match r.alternatives with
    | some alts =>
      some (.abbrElem ("misspelling lang-" ++ r.lang) r.word
        (String.intercalate ", " alts ++ "?"))
    | none => none

/-- The full replacement sequence for one text node's results. -/
def replaceWithFragments (rs : List CheckOutcome) : Option (List Fragment) :=
  rs.mapM resultToFragment

/-! Section: Tree walker (`spellCheckNode` / `spellCheckTag` / `spellCheckText`
/ `spellCheckChildren`)

The walk is modelled with the per-word verdicts abstracted as an oracle
`ok : word → lang → Bool` (the value the checker session for `lang`
eventually resolves for `word`), and its result condensed to the pair
(data of the text nodes that produced a `Misspelling` entry, requests
`(word, lang)` issued to the checker sessions, in order). -/

/-- A node of the parsed document tree, as the walker sees it:
`node.type` is `'text'` with string `data`, `'tag'` with a `name` and
ordered `children`, or some other type (`other`) that is logged and
skipped. -/
inductive HNode
  | text (data : String)
  | tag (name : String) (children : List HNode)
  | other (nodeType : String) (name : String)
deriving Repr

/-- The walker-relevant options: `elementLang` (element name → language),
`ignoreElement`, `failFast`. -/
structure WalkOptions where
  elementLang : List (String × String)
  ignoreElement : List String
  failFast : Bool

/-- Model of `options.elementLang[name] || parentNodeLang` from `spellCheckTag`
(an override mapped to the empty string is falsy in JavaScript and falls
back to the parent's language). -/
def effectiveLang (opts : WalkOptions) (name parentNodeLang : String) : String :=
  match opts.elementLang.lookup name with
  | some l => if l = "" then parentNodeLang else l
  | none => parentNodeLang

/-- Model of `spellCheckText(node, options, lang)`: segment `node.data`; word-class
spans are sent to the checker of `lang` (one request each), other spans
resolve `{success: true}` directly; the node yields a `Misspelling` entry
exactly when some result failed. -/
def spellCheckText (wc : Char → Bool) (ok : String → String → Bool)
    (data lang : String) : List String × List (String × String) :=
  let parts := Aspell.splitWordsAndSpaces wc data
  let requests := (parts.filter (fun w => Aspell.isWord wc w)).map (fun w => (w, lang))
  let allOk := parts.all (fun w => !Aspell.isWord wc w || ok w lang)
  (if allOk then [] else [data], requests)

mutual

/-- Model of `spellCheckNode(node, options, parentNodeLang)`: dispatch on
`node.type`; unexpected types are logged and contribute nothing. -/
def spellCheckNode (wc : Char → Bool) (ok : String → String → Bool)
    (opts : WalkOptions) : HNode → String → List String × List (String × String)
  | .text data, lang => spellCheckText wc ok data lang
  | .tag name children, parentNodeLang =>
    spellCheckTag wc ok opts name children parentNodeLang
  | .other _ _, _ => ([], [])

/-- Model of `spellCheckTag(node, options, parentNodeLang)`: an ignored element is
skipped entirely; otherwise its children are walked under the effective
language `options.elementLang[name] || parentNodeLang`. -/
def spellCheckTag (wc : Char → Bool) (ok : String → String → Bool)
    (opts : WalkOptions) (name : String) (children : List HNode)
    (parentNodeLang : String) : List String × List (String × String) :=
  if opts.ignoreElement.contains name then ([], [])
  else spellCheckChildren wc ok opts children (effectiveLang opts name parentNodeLang)

/-- Model of `spellCheckChildren(node, options, lang)`: walk the children in
order, concatenating their misspellings; with `failFast` set the loop
breaks as soon as the accumulated misspelling list is nonempty. -/
def spellCheckChildren (wc : Char → Bool) (ok : String → String → Bool)
    (opts : WalkOptions) : List HNode → String → List String × List (String × String)
  | [], _ => ([], [])
  | c :: cs, lang =>
    let r := spellCheckNode wc ok opts c lang
    if !r.1.isEmpty && opts.failFast then r
    else
      let rest := spellCheckChildren wc ok opts cs lang
      (r.1 ++ rest.1, r.2 ++ rest.2)

end

/-! Section: Orchestrator (`main` and the session setup loops) -/

/-- The document loop of `main(htmls, options)`: each document is spell
checked (`check doc` is the promised `outFile`, `none` when the document
is clean); an annotated document sets the exit status to `1` and, with
`failFast`, breaks the loop.  Returns the final `exitStatus` and the
documents processed, in order. -/
def mainLoop (failFast : Bool) (check : String → Option String) :
    List String → Nat × List String
  | [] => (0, [])
  | d :: ds =>
    match check d with
    | some _ =>
      if failFast then (1, [d])
      else (1, d :: (mainLoop failFast check ds).2)
    | none =>
      let rest := mainLoop failFast check ds
      (rest.1, d :: rest.2)

/-- The languages for which `new Aspell(...)` is constructed, in creation
order: first `options.lang`, then each `options.elementLang` value that
does not have a checker yet. -/
def sessionLangs (baseLang : String) (elementLang : List (String × String)) :
    List String :=
  elementLang.foldl
    (fun acc p => if acc.contains p.2 then acc else acc ++ [p.2]) [baseLang]

/-- Externally visible actions of one program run. -/
inductive ProgAction
  | createSession (lang : String)
  | endSession (lang : String)
  | processDoc (doc : String)
  | exitProc (code : Nat)
deriving Repr, DecidableEq

/-- The action trace of the whole program: the checker sessions are
created up front (the `new Aspell` loops), the document loop of `main`
runs, and `main(htmls, options).then(process.exit)` exits with the loop's
status.  The source never invokes `Aspell.end` (`endInput`), so no
`endSession` action ever occurs. -/
def programTrace (baseLang : String) (elementLang : List (String × String))
    (failFast : Bool) (check : String → Option String) (htmls : List String) :
    List ProgAction :=
  let result := mainLoop failFast check htmls
  (sessionLangs baseLang elementLang).map ProgAction.createSession
    ++ result.2.map ProgAction.processDoc
    ++ [ProgAction.exitProc result.1]

/-- The options of the spec's worked example: element-language override
`{"em": "pt_BR"}`, the default ignore-element set, fail-fast off. -/
def exampleOptions : WalkOptions :=
  { elementLang := [("em", "pt_BR")]
    ignoreElement := ["pre", "code", "a", "svg", "script", "style"]
    failFast := false }

/-- The spec's worked example document `<p>hello <em>mundo</em> world</p>`. -/
def exampleDocument : HNode :=
  .tag "p" [.text "hello ", .tag "em" [.text "mundo"], .text " world"]

/-! Section: Theorems -/

namespace Aspell

theorem splitRuns_join (wc : Char → Bool) :
    ∀ l : List Char, (splitRuns wc l).flatten = l := by
  intro l
  induction l with
  | nil => rfl
  | cons c cs ih =>
    simp only [splitRuns]
    rcases h : splitRuns wc cs with _ | ⟨_ | ⟨d, ds⟩, rs⟩
    · simp only [List.flatten]
      rw [h] at ih
      simpa using ih.symm
    · rw [h] at ih
      simpa using ih
    · rw [h] at ih
      by_cases hc : wc c = wc d
      · simpa [hc] using ih
      · simpa [hc] using ih

theorem asString_append (a b : List Char) :
    a.asString ++ b.asString = (a ++ b).asString := rfl

theorem foldl_append_asString (ls : List (List Char)) :
    ∀ acc : List Char,
      (ls.map List.asString).foldl (· ++ ·) acc.asString = (acc ++ ls.flatten).asString := by
  induction ls with
  | nil => intro acc; simp [List.flatten]
  | cons l ls ih =>
    intro acc
    simp only [List.map, List.foldl, List.flatten]
    rw [asString_append, ih, List.append_assoc]

theorem join_map_asString (ls : List (List Char)) :
    String.join (ls.map List.asString) = ls.flatten.asString := by
  have h := foldl_append_asString ls []
  simpa [String.join] using h

end Aspell

variable {α : Type}

theorem parseLine_comment (line : String) (cs : List Char)
    (q : List (String × α)) (h : line.toList = '@' :: cs) :
    Aspell.parseLine line q = .ok (.comment, q) := by
  unfold Aspell.parseLine
  rw [h]
  simp

theorem parseLine_dequeues (line : String) (c : Char) (cs : List Char)
    (w : String) (i : α) (qs : List (String × α))
    (h : line.toList = c :: cs) (h1 : c ≠ '@') (h2 : c ≠ '&') (h3 : c ≠ '#') :
    Aspell.parseLine line ((w, i) :: qs) =
      .ok (.verdict (Aspell.aspellToEventMap c) w i none none, qs) := by
  unfold Aspell.parseLine
  rw [h]
  simp [h1, h2, h3]

theorem parseLine_claim_check (line : String) (c : Char) (cs : List Char)
    (w : String) (i : α) (qs : List (String × α))
    (h : line.toList = c :: cs) (hc : c = '&' ∨ c = '#') :
    ((Aspell.splitResponseLine line)[1]? = some w →
      Aspell.parseLine line ((w, i) :: qs) =
        .ok (.verdict (Aspell.aspellToEventMap c) w i
          (((Aspell.splitResponseLine line)[if c = '#' then 2 else 3]?).bind
            Aspell.jsParseInt)
          (some ((Aspell.splitResponseLine line).drop 4)), qs)) ∧
    ((Aspell.splitResponseLine line)[1]? ≠ some w →
      Aspell.parseLine line ((w, i) :: qs) =
        .error (.protocolMismatch w (Aspell.splitResponseLine line)[1]?)) := by
  have h1 : c ≠ '@' := by rcases hc with hc | hc <;> simp [hc]
  constructor
  · intro heq
    unfold Aspell.parseLine
    rw [h]
    simp [h1, hc, heq]
  · intro hne
    unfold Aspell.parseLine
    rw [h]
    simp [h1, hc, hne]

theorem parseLine_blank (line : String) (q : List (String × α))
    (h : line.toList = []) : Aspell.parseLine line q = .ok (.lineBreak, q) := by
  unfold Aspell.parseLine
  rw [h]

theorem parseLine_emptyQueue (line : String) (c : Char) (cs : List Char)
    (h : line.toList = c :: cs) (h1 : c ≠ '@') :
    Aspell.parseLine line ([] : List (String × α)) = .error .emptyQueue := by
  unfold Aspell.parseLine
  rw [h]
  simp [h1]

theorem parseLine_ok_cases (line : String) (q q' : List (String × α))
    (r : Aspell.AspellResult α) (h : Aspell.parseLine line q = .ok (r, q')) :
    (Aspell.verdictWord r = none ∧ q' = q) ∨
    (∃ w i qs, q = (w, i) :: qs ∧ Aspell.verdictWord r = some w ∧ q' = qs) := by
  rcases hl : line.toList with _ | ⟨c, cs⟩
  · rw [parseLine_blank line q hl] at h
    cases h
    exact Or.inl ⟨rfl, rfl⟩
  · by_cases hat : c = '@'
    · subst hat
      rw [parseLine_comment line cs q hl] at h
      cases h
      exact Or.inl ⟨rfl, rfl⟩
    · rcases q with _ | ⟨⟨w, i⟩, qs⟩
      · rw [parseLine_emptyQueue line c cs hl hat] at h
        cases h
      · by_cases hamp : c = '&' ∨ c = '#'
        · by_cases hw : (Aspell.splitResponseLine line)[1]? = some w
          · rw [(parseLine_claim_check line c cs w i qs hl hamp).1 hw] at h
            simp only [Except.ok.injEq, Prod.mk.injEq] at h
            obtain ⟨hr, hq⟩ := h
            exact Or.inr ⟨w, i, qs, rfl, by rw [← hr]; rfl, hq.symm⟩
          · rw [(parseLine_claim_check line c cs w i qs hl hamp).2 hw] at h
            cases h
        · push_neg at hamp
          rw [parseLine_dequeues line c cs w i qs hl hat hamp.1 hamp.2] at h
          simp only [Except.ok.injEq, Prod.mk.injEq] at h
          obtain ⟨hr, hq⟩ := h
          exact Or.inr ⟨w, i, qs, rfl, by rw [← hr]; rfl, hq.symm⟩

theorem processLines_queue_words (lines : List String) :
    ∀ (q : List (String × α)) (rs : List (Aspell.AspellResult α)) rest,
      Aspell.processLines lines q = .ok (rs, rest) →
      q.map Prod.fst = rs.filterMap Aspell.verdictWord ++ rest.map Prod.fst := by
  induction lines with
  | nil =>
    intro q rs rest h
    unfold Aspell.processLines at h
    cases h
    simp
  | cons l ls ih =>
    intro q rs rest h
    unfold Aspell.processLines at h
    cases hp : Aspell.parseLine l q with
    | error e =>
      rw [hp] at h
      simp only [bind, Except.bind] at h
      cases h
    | ok pr =>
      obtain ⟨r, q₁⟩ := pr
      rw [hp] at h
      simp only [bind, Except.bind] at h
      cases hq : Aspell.processLines ls q₁ with
      | error e =>
        rw [hq] at h
        cases h
      | ok pr₂ =>
        obtain ⟨rs₁, rest₁⟩ := pr₂
        rw [hq] at h
        simp only [Except.ok.injEq, Prod.mk.injEq] at h
        obtain ⟨hrs, hrest⟩ := h
        subst hrs hrest
        have ihq := ih q₁ rs₁ rest₁ hq
        rcases parseLine_ok_cases l q q₁ r hp with ⟨hv, hqq⟩ | ⟨w, i, qs, hq0, hv, hq1⟩
        · subst hqq
          simpa [List.filterMap_cons, hv] using ihq
        · subst hq0 hq1
          simp [List.filterMap_cons, hv, ihq]

theorem processLines_error (l : String) (ls : List String)
    (q : List (String × α)) (e : Aspell.AspellError)
    (h : Aspell.parseLine l q = .error e) :
    Aspell.processLines (l :: ls) q = .error e := by
  unfold Aspell.processLines
  rw [h]
  rfl

/-- C1. Responses are correlated to requests strictly positionally:
blank lines and `@` lines consume no queued request; across a whole batch
of response lines the resolved words are exactly the queued words, in
submission order (the `n`-th substantive response line resolves the
`n`-th request); a `&`/`#` response whose claimed word differs from the
head-of-queue word is a protocol-mismatch fault; a faulting line aborts
the whole batch. -/
theorem C1_positional_correlation :
    (∀ (α : Type) (q : List (String × α)),
        Aspell.parseLine "" q = .ok (.lineBreak, q)) ∧
    (∀ (α : Type) (line : String) (cs : List Char) (q : List (String × α)),
        line.toList = '@' :: cs → Aspell.parseLine line q = .ok (.comment, q)) ∧
    (∀ (α : Type) (lines : List String) (q : List (String × α)) rs rest,
        Aspell.processLines lines q = .ok (rs, rest) →
        q.map Prod.fst = rs.filterMap Aspell.verdictWord ++ rest.map Prod.fst) ∧
    (∀ (α : Type) (line : String) (c : Char) (cs : List Char) (w : String)
        (i : α) (qs : List (String × α)),
        line.toList = c :: cs → (c = '&' ∨ c = '#') →
        (Aspell.splitResponseLine line)[1]? ≠ some w →
        Aspell.parseLine line ((w, i) :: qs) =
          .error (.protocolMismatch w (Aspell.splitResponseLine line)[1]?)) ∧
    (∀ (α : Type) (l : String) (ls : List String) (q : List (String × α)) e,
        Aspell.parseLine l q = .error e →
        Aspell.processLines (l :: ls) q = .error e) := by
  refine ⟨fun α q => rfl, fun α line cs q h => parseLine_comment line cs q h,
    fun α lines q rs rest h => processLines_queue_words lines q rs rest h,
    fun α line c cs w i qs h hc hne => (parseLine_claim_check line c cs w i qs h hc).2 hne,
    fun α l ls q e h => processLines_error l ls q e h⟩

/-- Witness for C1: a comment line, a blank line, a `*` line and a
matching `&` line resolve the two queued requests in order; a mismatched
`&` line faults and aborts the batch. -/
theorem C1_positional_correlation_witness :
    Aspell.parseLine "@(#) International Ispell" [("x", (0 : Nat))] =
      .ok (.comment, [("x", 0)]) ∧
    ([("ok1", (0 : Nat)), ("helo", 1)].map Prod.fst =
      ([Aspell.AspellResult.comment, .lineBreak,
        .verdict (some "ok") "ok1" 0 none none,
        .verdict (some "misspelling") "helo" 1 (some 0) (some ["hello", "help"])
       ].filterMap Aspell.verdictWord)
        ++ ([] : List (String × Nat)).map Prod.fst) ∧
    Aspell.parseLine "& wrong 1 0: x" [("helo", (0 : Nat))] =
      .error (.protocolMismatch "helo" (some "wrong")) ∧
    Aspell.processLines ["& wrong 1 0: x"] [("helo", (0 : Nat))] =
      .error (.protocolMismatch "helo" (some "wrong")) := by
  refine ⟨?_, ?_, ?_, ?_⟩
  · exact C1_positional_correlation.2.1 Nat "@(#) International Ispell"
      "(#) International Ispell".toList [("x", 0)] rfl
  · exact C1_positional_correlation.2.2.1 Nat
      ["@(#) Ispell", "", "* junk", "& helo 4 0: hello, help"]
      [("ok1", 0), ("helo", 1)]
      [Aspell.AspellResult.comment, .lineBreak,
        .verdict (some "ok") "ok1" 0 none none,
        .verdict (some "misspelling") "helo" 1 (some 0) (some ["hello", "help"])]
      [] (by rfl)
  · have h := C1_positional_correlation.2.2.2.1 Nat "& wrong 1 0: x" '&'
      " wrong 1 0: x".toList "helo" 0 [] rfl (Or.inl rfl) (by decide)
    simpa using h
  · refine C1_positional_correlation.2.2.2.2 Nat "& wrong 1 0: x" [] [("helo", 0)]
      (.protocolMismatch "helo" (some "wrong")) ?_
    have h := C1_positional_correlation.2.2.2.1 Nat "& wrong 1 0: x" '&'
      " wrong 1 0: x".toList "helo" 0 [] rfl (Or.inl rfl) (by decide)
    simpa using h

/-- C10. The word-equality protocol check is performed only for
response lines beginning with `&` or `#`: a line beginning with `*` or
`-` (indeed any other non-`@`, nonempty line) always dequeues and
resolves the head-of-queue request purely positionally, for an arbitrary
line tail, with no validation against the request's word; `&`/`#` lines
succeed when the claimed word `parts[1]` matches the head-of-queue word
and fault when it differs. -/
theorem C10_validation_only_for_misspellings :
    (∀ (α : Type) (line : String) (c : Char) (cs : List Char) (w : String)
        (i : α) (qs : List (String × α)),
        line.toList = c :: cs → (c = '*' ∨ c = '-') →
        Aspell.parseLine line ((w, i) :: qs) =
          .ok (.verdict (Aspell.aspellToEventMap c) w i none none, qs)) ∧
    (∀ (α : Type) (line : String) (c : Char) (cs : List Char) (w : String)
        (i : α) (qs : List (String × α)),
        line.toList = c :: cs → c ≠ '@' → c ≠ '&' → c ≠ '#' →
        Aspell.parseLine line ((w, i) :: qs) =
          .ok (.verdict (Aspell.aspellToEventMap c) w i none none, qs)) ∧
    (∀ (α : Type) (line : String) (c : Char) (cs : List Char) (w : String)
        (i : α) (qs : List (String × α)),
        line.toList = c :: cs → (c = '&' ∨ c = '#') →
        (((Aspell.splitResponseLine line)[1]? = some w →
          Aspell.parseLine line ((w, i) :: qs) =
            .ok (.verdict (Aspell.aspellToEventMap c) w i
              (((Aspell.splitResponseLine line)[if c = '#' then 2 else 3]?).bind
                Aspell.jsParseInt)
              (some ((Aspell.splitResponseLine line).drop 4)), qs)) ∧
         ((Aspell.splitResponseLine line)[1]? ≠ some w →
          Aspell.parseLine line ((w, i) :: qs) =
            .error (.protocolMismatch w (Aspell.splitResponseLine line)[1]?)))) := by
  refine ⟨fun α line c cs w i qs h hc => ?_,
    fun α line c cs w i qs h h1 h2 h3 => parseLine_dequeues line c cs w i qs h h1 h2 h3,
    fun α line c cs w i qs h hc => parseLine_claim_check line c cs w i qs h hc⟩
  rcases hc with hc | hc <;> subst hc <;>
    exact parseLine_dequeues line _ cs w i qs h (by decide) (by decide) (by decide)

/-- Witness for C10: a `*` line whose tail names a different word is
accepted without validation and resolves the queued word `"foo"`; the
matching and mismatching `&` cases behave as stated. -/
theorem C10_validation_only_for_misspellings_witness :
    Aspell.parseLine "* wrongword" [("foo", (0 : Nat))] =
      .ok (.verdict (some "ok") "foo" 0 none none, []) ∧
    Aspell.parseLine "- whatever" [("bar", (0 : Nat))] =
      .ok (.verdict (some "run-together") "bar" 0 none none, []) ∧
    Aspell.parseLine "& helo 4 0: hello, help" [("helo", (0 : Nat))] =
      .ok (.verdict (some "misspelling") "helo" 0 (some 0)
        (some ["hello", "help"]), []) := by
  refine ⟨?_, ?_, ?_⟩
  · have h := C10_validation_only_for_misspellings.1 Nat "* wrongword" '*'
      " wrongword".toList "foo" 0 [] rfl (Or.inl rfl)
    simpa using h
  · have h := C10_validation_only_for_misspellings.1 Nat "- whatever" '-'
      " whatever".toList "bar" 0 [] rfl (Or.inr rfl)
    simpa using h
  · have h := (C10_validation_only_for_misspellings.2.2 Nat
      "& helo 4 0: hello, help" '&' " helo 4 0: hello, help".toList
      "helo" 0 [] rfl (Or.inl rfl)).1 (by decide)
    simpa using h

/-- C2 is violated by the code: a response line starting with `-`
(compound/run-together word) is mapped to the event type `run-together`,
which the per-checker `result` handler resolves with `success: false` —
grouped with misspellings — and with `alternatives` left undefined, on
which the reconciler's `r.alternatives.join` then crashes; the word is
not accepted as correct. -/
theorem C2_runTogether_resolved_as_failure :
    Aspell.parseLine "-" [("helloworld", ({ offset := 0, lang := "en_US" } : WordInfo))] =
      .ok (.verdict (some "run-together") "helloworld" ⟨0, "en_US"⟩ none none, []) ∧
    handleResult (.verdict (some "run-together") "helloworld" ⟨0, "en_US"⟩ none none) =
      some { success := false, word := "helloworld", lang := "en_US",
             alternatives := none } ∧
    resultToFragment
        { success := false, word := "helloworld", lang := "en_US",
          alternatives := none } = none := by
  exact ⟨rfl, rfl, rfl⟩

/-- C3. For every input string, concatenating the spans returned by
the segmenter `splitWordsAndSpaces` in order reproduces the input string
exactly, and the empty input string yields an empty sequence of spans.
Stated for an arbitrary word-character class `wc`, hence in particular for
the source's Unicode class `[\pL\pN]`. -/
theorem C3_splitWordsAndSpaces_roundtrip :
    (∀ (wc : Char → Bool) (s : String),
        String.join (Aspell.splitWordsAndSpaces wc s) = s) ∧
    (∀ wc : Char → Bool, Aspell.splitWordsAndSpaces wc "" = []) := by
  refine ⟨fun wc s => ?_, fun _ => rfl⟩
  unfold Aspell.splitWordsAndSpaces
  rw [Aspell.join_map_asString, Aspell.splitRuns_join]
  exact String.asString_toList s

/-- C9. `checkWord(word, info)` raises a programming-error fault if
and only if `word` fails the word-class test; when the precondition holds
it appends the request to the FIFO queue and writes the word to the
process input.  `isWord` returns `true` on every nonempty string of
word-class characters and `false` on every string containing only
non-word characters. -/
theorem C9_checkWord_guard :
    (∀ (α : Type) (wc : Char → Bool) (w : String) (i : α)
        (st : Aspell.AspellState α),
        Aspell.checkWord wc w i st = .error .notAWord ↔
          Aspell.isWord wc w = false) ∧
    (∀ (α : Type) (wc : Char → Bool) (w : String) (i : α)
        (st : Aspell.AspellState α),
        Aspell.isWord wc w = true →
        Aspell.checkWord wc w i st =
          .ok { queue := st.queue ++ [(w, i)],
                written := st.written ++ [w],
                stdinClosed := st.stdinClosed }) ∧
    (∀ (wc : Char → Bool) (s : String),
        s ≠ "" → s.toList.all wc = true → Aspell.isWord wc s = true) ∧
    (∀ (wc : Char → Bool) (s : String),
        s.toList.all (fun c => !wc c) = true → Aspell.isWord wc s = false) := by
  refine ⟨fun α wc w i st => ?_, fun α wc w i st h => ?_, fun wc s hne hall => ?_,
    fun wc s hall => ?_⟩
  · unfold Aspell.checkWord
    constructor
    · intro h
      by_contra hw
      simp only [Bool.not_eq_false] at hw
      simp [hw] at h
    · intro h
      simp [h]
  · unfold Aspell.checkWord
    simp [h]
  · unfold Aspell.isWord
    have : s.toList ≠ [] := fun hl => hne (by
      have := congrArg List.asString hl
      rwa [String.asString_toList] at this)
    rcases hl : s.toList with _ | ⟨c, cs⟩
    · exact absurd hl this
    · simp only [List.isEmpty_cons, Bool.not_false, Bool.true_and]
      rw [hl] at hall
      exact hall
  · unfold Aspell.isWord
    rcases hl : s.toList with _ | ⟨c, cs⟩
    · simp
    · rw [hl] at hall
      simp only [List.all_cons, Bool.and_eq_true] at hall
      simp only [List.isEmpty_cons, Bool.not_false, Bool.true_and, List.all_cons]
      simp only [Bool.not_eq_true'] at hall
      simp [hall.1]

theorem replaceWithFragments_all_success (rs : List CheckOutcome)
    (h : ∀ x ∈ rs, x.success = true) :
    replaceWithFragments rs = some (rs.map (fun x => Fragment.text x.word)) := by
  induction rs with
  | nil => rfl
  | cons r rs ih =>
    have hr : r.success = true := h r (List.mem_cons_self r rs)
    have ihh := ih (fun x hx => h x (List.mem_cons_of_mem r hx))
    simp only [replaceWithFragments] at ihh ⊢
    rw [List.mapM_cons, ihh]
    simp [resultToFragment, hr]

/-- C7. A text node's result list containing exactly one failing word
is replaced by the successful spans verbatim, in order, around one
annotation element whose visible text is the original word and whose
title is the alternatives joined by `", "` followed by `"?"`; for
alternatives `["foo", "bar"]` the title is `"foo, bar?"` and for no
alternatives it is `"?"`. -/
theorem C7_single_misspelling_markup :
    (∀ (pre post : List CheckOutcome) (r : CheckOutcome) (alts : List String),
        (∀ x ∈ pre, x.success = true) → (∀ x ∈ post, x.success = true) →
        r.success = false → r.alternatives = some alts →
        replaceWithFragments (pre ++ r :: post) =
          some (pre.map (fun x => Fragment.text x.word) ++
            Fragment.abbrElem ("misspelling lang-" ++ r.lang) r.word
              (String.intercalate ", " alts ++ "?") ::
            post.map (fun x => Fragment.text x.word))) ∧
    String.intercalate ", " ["foo", "bar"] ++ "?" = "foo, bar?" ∧
    String.intercalate ", " ([] : List String) ++ "?" = "?" := by
  refine ⟨?_, rfl, rfl⟩
  intro pre post r alts hpre hpost hr halts
  induction pre with
  | nil =>
    simp only [List.nil_append, List.map_nil]
    simp only [replaceWithFragments, List.mapM_cons]
    have hrf : resultToFragment r =
        some (.abbrElem ("misspelling lang-" ++ r.lang) r.word
          (String.intercalate ", " alts ++ "?")) := by
      simp [resultToFragment, hr, halts]
    rw [hrf]
    have hp := replaceWithFragments_all_success post hpost
    simp only [replaceWithFragments] at hp
    rw [hp]
    rfl
  | cons p pre ih =>
    have hp : p.success = true := hpre p (List.mem_cons_self p pre)
    have ihh := ih (fun x hx => hpre x (List.mem_cons_of_mem p hx))
    simp only [List.cons_append, replaceWithFragments, List.mapM_cons] at ihh ⊢
    rw [show resultToFragment p = some (.text p.word) by simp [resultToFragment, hp]]
    rw [ihh]
    rfl

/-- Witness for C7: one failing word `"helo"` with alternatives
`["foo", "bar"]` between two successful spans. -/
theorem C7_single_misspelling_markup_witness :
    replaceWithFragments
        [⟨true, "a ", "en_US", none⟩,
         ⟨false, "helo", "en_US", some ["foo", "bar"]⟩,
         ⟨true, " b", "en_US", none⟩] =
      some [.text "a ",
        .abbrElem "misspelling lang-en_US" "helo" "foo, bar?",
        .text " b"] := by
  have h := C7_single_misspelling_markup.1
    [⟨true, "a ", "en_US", none⟩] [⟨true, " b", "en_US", none⟩]
    ⟨false, "helo", "en_US", some ["foo", "bar"]⟩ ["foo", "bar"]
    (by decide) (by decide) rfl rfl
  simpa using h

/-- C5. The effective language for an element's children is the
per-element-name override when one is configured for the tag name, else
the language inherited from the parent; with override `{"em": "pt_BR"}`
and base language `"en_US"`, the document
`<p>hello <em>mundo</em> world</p>` sends `"hello"` and `"world"` to the
`en_US` session and `"mundo"` to the `pt_BR` session. -/
theorem C5_effective_language :
    (∀ (opts : WalkOptions) (name parent l : String),
        opts.elementLang.lookup name = some l → l ≠ "" →
        effectiveLang opts name parent = l) ∧
    (∀ (opts : WalkOptions) (name parent : String),
        opts.elementLang.lookup name = none →
        effectiveLang opts name parent = parent) ∧
    (∀ (wc : Char → Bool) (ok : String → String → Bool) (opts : WalkOptions)
        (name : String) (children : List HNode) (parent : String),
        opts.ignoreElement.contains name = false →
        spellCheckTag wc ok opts name children parent =
          spellCheckChildren wc ok opts children (effectiveLang opts name parent)) ∧
    (spellCheckNode Aspell.wordChar (fun _ _ => true) exampleOptions
        exampleDocument "en_US").2 =
      [("hello", "en_US"), ("mundo", "pt_BR"), ("world", "en_US")] := by
  refine ⟨?_, ?_, ?_, ?_⟩
  · intro opts name parent l hl hne
    simp [effectiveLang, hl, hne]
  · intro opts name parent hl
    simp [effectiveLang, hl]
  · intro wc ok opts name children parent h
    have h' : ¬ (opts.ignoreElement.contains name = true) := by
      intro hh
      rw [h] at hh
      exact absurd hh (by decide)
    rw [spellCheckTag, if_neg h']
  · simp only [exampleDocument, exampleOptions, spellCheckNode, spellCheckTag,
      spellCheckChildren]
    norm_num
    rfl

/-- Witness for C5 at the worked example: `"em"` is overridden to
`"pt_BR"`, `"p"` has no override and inherits `"en_US"`, and a
non-ignored tag walks its children under the effective language. -/
theorem C5_effective_language_witness :
    effectiveLang exampleOptions "em" "en_US" = "pt_BR" ∧
    effectiveLang exampleOptions "p" "en_US" = "en_US" ∧
    spellCheckTag Aspell.wordChar (fun _ _ => true) exampleOptions "p"
        [HNode.text "x"] "en_US" =
      spellCheckChildren Aspell.wordChar (fun _ _ => true) exampleOptions
        [HNode.text "x"] (effectiveLang exampleOptions "p" "en_US") := by
  refine ⟨?_, ?_, ?_⟩
  · exact C5_effective_language.1 exampleOptions "em" "en_US" "pt_BR" rfl (by decide)
  · exact C5_effective_language.2.1 exampleOptions "p" "en_US" rfl
  · exact C5_effective_language.2.2.1 Aspell.wordChar (fun _ _ => true)
      exampleOptions "p" [HNode.text "x"] "en_US" rfl

/-- C6. An element whose tag name is in the configured
ignore-element set is skipped entirely: no word of its subtree is ever
sent to any checker session (no requests), and the subtree contributes no
misspellings — for every subtree, every oracle and every language. -/
theorem C6_ignored_subtree :
    ∀ (wc : Char → Bool) (ok : String → String → Bool) (opts : WalkOptions)
      (name : String) (children : List HNode) (parent : String),
      opts.ignoreElement.contains name = true →
      spellCheckTag wc ok opts name children parent = ([], []) ∧
      spellCheckNode wc ok opts (.tag name children) parent = ([], []) := by
  intro wc ok opts name children parent h
  constructor
  · rw [spellCheckTag, if_pos h]
  · rw [spellCheckNode, spellCheckTag, if_pos h]

/-- Witness for C6: `<pre>` content is skipped under the default
ignore-element set, producing no requests and no misspellings. -/
theorem C6_ignored_subtree_witness :
    spellCheckNode Aspell.wordChar (fun _ _ => true) exampleOptions
      (.tag "pre" [.text "xyzzy abc"]) "en_US" = ([], []) :=
  (C6_ignored_subtree Aspell.wordChar (fun _ _ => true) exampleOptions
    "pre" [.text "xyzzy abc"] "en_US" rfl).2

/-- C8. With fail-fast enabled, a document list whose first document
is annotated is halted right after that document — the rest are never
processed — and the run's exit status is 1; with fail-fast disabled every
document is processed regardless of individual outcomes. -/
theorem C8_failFast_halts :
    (∀ (check : String → Option String) (d f : String) (ds : List String),
        check d = some f → mainLoop true check (d :: ds) = (1, [d])) ∧
    (∀ (check : String → Option String) (docs : List String),
        (mainLoop false check docs).2 = docs) := by
  constructor
  · intro check d f ds h
    unfold mainLoop
    rw [h]
    simp
  · intro check docs
    induction docs with
    | nil => rfl
    | cons d ds ih =>
      unfold mainLoop
      cases h : check d <;> simp [h, ih]

/-- Witness for C8: two documents, the first annotated; with fail-fast
only the first is processed and the status is 1; without fail-fast both
are processed. -/
theorem C8_failFast_halts_witness :
    mainLoop true (fun d => if d = "a.html" then some "out/a.html" else none)
      ["a.html", "b.html"] = (1, ["a.html"]) ∧
    (mainLoop false (fun d => if d = "a.html" then some "out/a.html" else none)
      ["a.html", "b.html"]).2 = ["a.html", "b.html"] := by
  constructor
  · exact C8_failFast_halts.1 (fun d => if d = "a.html" then some "out/a.html" else none)
      "a.html" "out/a.html" ["b.html"] rfl
  · exact C8_failFast_halts.2 (fun d => if d = "a.html" then some "out/a.html" else none)
      ["a.html", "b.html"]

/-- C4 fails on the code: running one clean document with base
language `en_US` creates the `en_US` session but the trace contains no
`endSession` action at all — `Aspell.end` is never invoked before
`process.exit`. -/
theorem C4_counterexample_session_not_closed :
    ¬ (∀ lang : String,
        ProgAction.createSession lang ∈
          programTrace "en_US" [] false (fun _ => none) ["a.html"] →
        ProgAction.endSession lang ∈
          programTrace "en_US" [] false (fun _ => none) ["a.html"]) := by
  intro h
  have hc : ProgAction.createSession "en_US" ∈
      programTrace "en_US" [] false (fun _ => none) ["a.html"] := by decide
  exact absurd (h "en_US" hc) (by decide)

/-- C4 (amended). No `LanguageSession` is ever explicitly closed:
the program never invokes `Aspell.end`, so for every run the trace
contains no `endSession` action for any language; after the document
loop the program exits directly (via `process.exit`) with the loop's
status, terminating the checker processes implicitly. -/
theorem C4_amended_sessions_never_closed :
    ∀ (baseLang : String) (elementLang : List (String × String))
      (failFast : Bool) (check : String → Option String)
      (htmls : List String) (lang : String),
      ProgAction.endSession lang ∉
        programTrace baseLang elementLang failFast check htmls ∧
      ProgAction.exitProc (mainLoop failFast check htmls).1 ∈
        programTrace baseLang elementLang failFast check htmls := by
  intro b e f c h lang
  constructor
  · simp [programTrace]
  · simp [programTrace]

/-- Witness for C4 (amended) at a concrete run. -/
theorem C4_amended_sessions_never_closed_witness :
    ProgAction.endSession "en_US" ∉
      programTrace "en_US" [] false (fun _ => none) ["a.html"] ∧
    ProgAction.exitProc 0 ∈
      programTrace "en_US" [] false (fun _ => none) ["a.html"] :=
  C4_amended_sessions_never_closed "en_US" [] false (fun _ => none) ["a.html"] "en_US"

/-- Witness for C9 at concrete inputs: `"hello"` passes the word test and
is enqueued and written; `"!?"` fails it. -/
theorem C9_checkWord_guard_witness :
    Aspell.checkWord Aspell.wordChar "hello" (0 : Nat)
        { queue := [], written := [], stdinClosed := false } =
      .ok { queue := [("hello", 0)], written := ["hello"], stdinClosed := false } ∧
    Aspell.isWord Aspell.wordChar "hello" = true ∧
    Aspell.isWord Aspell.wordChar "!?" = false := by
  refine ⟨?_, ?_, ?_⟩
  · have h := C9_checkWord_guard.2.1 Nat Aspell.wordChar "hello" 0
      { queue := [], written := [], stdinClosed := false } (by decide)
    simpa using h
  · exact C9_checkWord_guard.2.2.1 Aspell.wordChar "hello" (by decide) (by decide)
  · exact C9_checkWord_guard.2.2.2 Aspell.wordChar "!?" (by decide)

end MdDocutils
